import Mathlib

/-!
Verification of the document-store operations of src/mcp_server.py.

The filesystem is modelled as an association list from absolute path strings
to files. A file carries its content and an optional read fault: when the
fault is present, opening the file for reading raises an exception carrying
that message (permission or decode errors). Write and remove faults are
modelled per path in the same way, so every operation can be analysed under
arbitrary filesystem conditions. Each Python handler becomes a pure function
taking the filesystem state; handlers that mutate (save_docs, remove_docs)
return the new state together with the message they produce.
-/

/-- Modelled install location of the script (SCRIPT_DIR in the source is the
directory containing mcp_server.py, resolved at startup). The concrete value
is irrelevant to every theorem below; a fixed sample is used. -/
def SCRIPT_DIR : String := "/srv/app"

/-- DOCS_DIR = SCRIPT_DIR / "docs", the store root. -/
def DOCS_DIR : String := SCRIPT_DIR ++ "/docs"

/-- A stored file: its text content, and an optional fault raised when the
file is opened and read (models permission and decode errors caught by the
try/except in read_docs). -/
structure File where
  content : String
  readFault : Option String
deriving DecidableEq

/-- Filesystem state: the files by absolute path, plus the paths at which
opening for write (save_docs) or deleting (remove_docs) raises, with the
exception message each would carry. -/
structure Fs where
  files : List (String × File)
  writeFaults : List (String × String)
  removeFaults : List (String × String)
deriving DecidableEq

/-- The empty, fault-free filesystem. -/
def emptyFs : Fs := Fs.mk [] [] []

/-- First-match lookup in an association list. -/
def alistLookup {α : Type} : List (String × α) → String → Option α
  | [], _ => none
  | e :: rest, key => if e.1 = key then some e.2 else alistLookup rest key

/-- Create-or-overwrite a key (open(path, "w") semantics). -/
def alistSet {α : Type} (l : List (String × α)) (key : String) (v : α) :
    List (String × α) :=
  (key, v) :: l.filter (fun e => e.1 ≠ key)

/-- Delete a key (os.remove semantics). -/
def alistErase {α : Type} (l : List (String × α)) (key : String) :
    List (String × α) :=
  l.filter (fun e => e.1 ≠ key)

/-- Python: text.lower().replace(" ", "-").  Since the replaced pattern is the
single character " ", the composite is this per-character map (lowercasing
never produces a space). -/
def kebab_case (text : String) : String :=
  String.mk (text.data.map (fun c => if c = ' ' then '-' else c.toLower))

/-- The suffix fixup shared by all three handlers:
if not filename.endswith(".md"): filename += ".md". -/
def ensureMd (filename : String) : String :=
  if ".md".data.isSuffixOf filename.data then filename else filename ++ ".md"

/-- Python: DOCS_DIR / filename via pathlib; an absolute right operand
(leading "/") replaces the left operand, otherwise the parts are joined
with a separator. -/
def pathJoin (dir name : String) : String :=
  if name.data.head? = some '/' then name else dir ++ "/" ++ name

/-- The separator line between file sections in read_docs: "=" * 50. -/
def sep50 : String := String.mk (List.replicate 50 '=')

/-- The suffix of a path below the store root. -/
def stripDocsDir (path : String) : String :=
  String.mk (path.data.drop (DOCS_DIR ++ "/").data.length)

/-- The name under which DOCS_DIR.glob("*.md") reports a stored path, if any:
the path must lie directly in the store root (no further separator) and end
in ".md". Hidden files are included: pathlib Path.glob("*.md") matches names
starting with a dot, such as ".md" and ".secret.md". -/
def docEntryName (path : String) : Option String :=
  if (DOCS_DIR ++ "/").data.isPrefixOf path.data then
    if ".md".data.isSuffixOf (stripDocsDir path).data
        && !((stripDocsDir path).data.contains '/') then
      some (stripDocsDir path)
    else none
  else none

/-- The filenames produced by list(DOCS_DIR.glob("*.md")), in storage order. -/
def docNames (fs : Fs) : List String :=
  fs.files.filterMap (fun e => docEntryName e.1)

/-- Handler list_docs: header plus one bullet per file, or the empty-store
message. -/
def list_docs (fs : Fs) : String :=
  if docNames fs = [] then "No documentation files found."
  else (docNames fs).foldl
    (fun result name => result ++ ("- " ++ name ++ "\n"))
    "Available documentation files:\n\n"

/-- One iteration of the read_docs loop body for a requested filename: the
suffix fixup, the existence check, then the guarded open/read, producing
either the framed content section or an inline error notice. -/
def readSection (fs : Fs) (filename : String) : String :=
  match alistLookup fs.files (pathJoin DOCS_DIR (ensureMd filename)) with
  | none => "Error: File \x27" ++ ensureMd filename ++ "\x27 not found.\n\n"
  | some file =>
    match file.readFault with
    | some e => "Error reading \x27" ++ ensureMd filename ++ "\x27: " ++ e ++ "\n\n"
    | none => "## " ++ ensureMd filename ++ "\n\n" ++ file.content ++ "\n\n"
        ++ sep50 ++ "\n\n"

/-- Handler read_docs: empty input is rejected, otherwise the loop
accumulates one section per requested filename and the result is stripped. -/
def read_docs (fs : Fs) (filenames : List String) : String :=
  if filenames = [] then "Error: No filenames provided."
  else (filenames.foldl (fun result filename => result ++ readSection fs filename) "").trim

/-- Handler save_docs: kebab-case the name, apply the suffix fixup, then
open(file_path, "w") and write, catching any exception. -/
def save_docs (fs : Fs) (filename content : String) : Fs × String :=
  match alistLookup fs.writeFaults (pathJoin DOCS_DIR (ensureMd (kebab_case filename))) with
  | some e => (fs, "Error saving documentation: " ++ e)
  | none =>
    ({ fs with files := alistSet fs.files (pathJoin DOCS_DIR (ensureMd (kebab_case filename))) (File.mk content none) },
     "Successfully saved documentation to " ++ ensureMd (kebab_case filename)
       ++ " in " ++ DOCS_DIR)

/-- Handler remove_docs: the suffix fixup (no kebab-casing), the existence
check, then os.remove guarded by try/except. -/
def remove_docs (fs : Fs) (filename : String) : Fs × String :=
  if (alistLookup fs.files (pathJoin DOCS_DIR (ensureMd filename))).isNone then
    (fs, "Error: File \x27" ++ ensureMd filename ++ "\x27 not found.")
  else
    match alistLookup fs.removeFaults (pathJoin DOCS_DIR (ensureMd filename)) with
    | some e => (fs, "Error removing documentation: " ++ e)
    | none =>
      ({ fs with files := alistErase fs.files (pathJoin DOCS_DIR (ensureMd filename)) },
       "Successfully removed " ++ ensureMd filename ++ " from " ++ DOCS_DIR)

/-- N-fold repetition of the same save_docs call, for the idempotence claim. -/
def iterSave (fs : Fs) (filename content : String) : Nat → Fs
  | 0 => fs
  | n + 1 => (save_docs (iterSave fs filename content n) filename content).1

/-- Split a character list at "/" separators into path components. -/
def splitSlashAux : List Char → List Char → List String
  | [], acc => [String.mk acc.reverse]
  | c :: rest, acc =>
    if c = '/' then String.mk acc.reverse :: splitSlashAux rest []
    else splitSlashAux rest (c :: acc)

/-- POSIX-style resolution of one path component against a component stack:
empty and "." are skipped, ".." pops, anything else is pushed. -/
def resolveStep (stack : List String) (comp : String) : List String :=
  if comp = "" ∨ comp = "." then stack
  else if comp = ".." then stack.dropLast
  else stack ++ [comp]

/-- Resolve a path string to its normalised component list. -/
def resolvePath (p : String) : List String :=
  (splitSlashAux p.data []).foldl resolveStep []

/-- A path escapes the store root when its resolved form does not lie below
the resolved root. -/
def escapesRoot (p : String) : Bool :=
  !((resolvePath DOCS_DIR).isPrefixOf (resolvePath p))

theorem alistLookup_set_self {α : Type} (l : List (String × α)) (k : String) (v : α) :
    alistLookup (alistSet l k v) k = some v := by
  simp [alistSet, alistLookup]

theorem alistLookup_erase_self {α : Type} (l : List (String × α)) (k : String) :
    alistLookup (alistErase l k) k = none := by
  induction l with
  | nil => rfl
  | cons e rest ih =>
    by_cases h : e.1 = k
    · simpa [alistErase, List.filter_cons, h] using ih
    · simpa [alistErase, List.filter_cons, h, alistLookup] using ih

theorem alistSet_idem {α : Type} (l : List (String × α)) (k : String) (v : α) :
    alistSet (alistSet l k v) k v = alistSet l k v := by
  simp [alistSet, List.filter_cons, List.filter_filter]

theorem join_cons (s : String) (l : List String) :
    String.join (s :: l) = s ++ String.join l := by
  have shift : ∀ (l : List String) (acc : String),
      l.foldl (fun r x => r ++ x) acc = acc ++ l.foldl (fun r x => r ++ x) "" := by
    intro l
    induction l with
    | nil => intro acc; simp
    | cons t rest ih =>
      intro acc
      simp only [List.foldl_cons]
      rw [ih (acc ++ t), ih ("" ++ t), String.empty_append, String.append_assoc]
  show (s :: l).foldl (fun r x => r ++ x) "" = s ++ l.foldl (fun r x => r ++ x) ""
  simp only [List.foldl_cons, String.empty_append]
  exact shift l s

theorem foldl_append_join {α : Type} (g : α → String) (l : List α) (acc : String) :
    l.foldl (fun r x => r ++ g x) acc = acc ++ String.join (l.map g) := by
  induction l generalizing acc with
  | nil => simp [String.join]
  | cons x rest ih =>
    simp only [List.foldl_cons, List.map_cons, join_cons, ih (acc ++ g x)]
    rw [String.append_assoc]

theorem docEntryName_some {path n : String} (h : docEntryName path = some n) :
    path = DOCS_DIR ++ "/" ++ n ∧ n.data.contains '/' = false := by
  unfold docEntryName at h
  split at h
  next hpre =>
    split at h
    next hcond =>
      injection h with hn
      rw [List.isPrefixOf_iff_prefix] at hpre
      obtain ⟨t, ht⟩ := hpre
      have hdata : (stripDocsDir path).data = t := by
        simp only [stripDocsDir, ← ht, List.drop_left]
      constructor
      · apply String.ext
        rw [String.data_append, ← hn, hdata, ht]
      · simp only [Bool.and_eq_true, Bool.not_eq_true'] at hcond
        rw [← hn]
        exact hcond.2
    next => exact absurd h (by simp)
  next => exact absurd h (by simp)

theorem pathJoin_eq_of_no_slash (s : String) (h : s.data.contains '/' = false) :
    pathJoin DOCS_DIR s = DOCS_DIR ++ "/" ++ s := by
  unfold pathJoin
  rw [if_neg]
  intro habs
  cases hs : s.data with
  | nil => rw [hs] at habs; simp at habs
  | cons c rest =>
    rw [hs] at habs h
    simp only [List.head?_cons, Option.some.injEq] at habs
    rw [habs] at h
    simp [List.contains_cons] at h

theorem append_md_ne (s : String) : ¬ (s ++ ".md" = s) := by
  intro h
  have hlen := congrArg String.length h
  rw [String.length_append] at hlen
  have h3 : (".md" : String).length = 3 := rfl
  rw [h3] at hlen
  omega

theorem ensureMd_eq_self_iff (s : String) :
    ensureMd s = s ↔ ".md".data.isSuffixOf s.data = true := by
  unfold ensureMd
  constructor
  · intro h
    by_cases hc : ".md".data.isSuffixOf s.data = true
    · exact hc
    · rw [if_neg hc] at h
      exact absurd h (append_md_ne s)
  · intro h
    rw [if_pos h]

theorem ensureMd_eq_append_iff (s : String) :
    ensureMd s = s ++ ".md" ↔ ".md".data.isSuffixOf s.data = false := by
  unfold ensureMd
  constructor
  · intro h
    by_cases hc : ".md".data.isSuffixOf s.data = true
    · rw [if_pos hc] at h
      exact absurd h.symm (append_md_ne s)
    · exact Bool.not_eq_true _ ▸ Bool.eq_false_iff.mpr hc
  · intro h
    rw [if_neg (by rw [h]; exact Bool.false_ne_true)]

theorem save_docs_files (fs : Fs) (filename content : String)
    (hw : alistLookup fs.writeFaults (pathJoin DOCS_DIR (ensureMd (kebab_case filename))) = none) :
    (save_docs fs filename content).1.files
      = alistSet fs.files (pathJoin DOCS_DIR (ensureMd (kebab_case filename))) (File.mk content none) := by
  unfold save_docs
  rw [hw]

theorem save_docs_writeFaults (fs : Fs) (filename content : String) :
    (save_docs fs filename content).1.writeFaults = fs.writeFaults := by
  unfold save_docs
  cases alistLookup fs.writeFaults (pathJoin DOCS_DIR (ensureMd (kebab_case filename))) <;> rfl

theorem save_docs_removeFaults (fs : Fs) (filename content : String) :
    (save_docs fs filename content).1.removeFaults = fs.removeFaults := by
  unfold save_docs
  cases alistLookup fs.writeFaults (pathJoin DOCS_DIR (ensureMd (kebab_case filename))) <;> rfl

theorem remove_docs_files_of_present (fs : Fs) (filename : String) (f : File)
    (hpresent : alistLookup fs.files (pathJoin DOCS_DIR (ensureMd filename)) = some f)
    (hr : alistLookup fs.removeFaults (pathJoin DOCS_DIR (ensureMd filename)) = none) :
    (remove_docs fs filename).1.files
      = alistErase fs.files (pathJoin DOCS_DIR (ensureMd filename)) := by
  unfold remove_docs
  rw [hpresent, if_neg (by simp), hr]

/-- Claim C5: save_docs stores under the name obtained by kebab-casing the
input first and then appending ".md" exactly when the kebab-cased result does
not already end in ".md": the stored entry sits at the path of
ensureMd (kebab_case name), and the suffix is appended if and only if the
kebab-cased name lacks it (so the check happens after kebab-casing). -/
theorem c5_save_normalization (fs : Fs) (name c : String)
    (hw : alistLookup fs.writeFaults (pathJoin DOCS_DIR (ensureMd (kebab_case name))) = none) :
    (save_docs fs name c).1.files
        = alistSet fs.files (pathJoin DOCS_DIR (ensureMd (kebab_case name))) (File.mk c none)
      ∧ (ensureMd (kebab_case name) = kebab_case name
          ↔ ".md".data.isSuffixOf (kebab_case name).data = true)
      ∧ (ensureMd (kebab_case name) = kebab_case name ++ ".md"
          ↔ ".md".data.isSuffixOf (kebab_case name).data = false) :=
  ⟨save_docs_files fs name c hw, ensureMd_eq_self_iff _, ensureMd_eq_append_iff _⟩

/-- Concrete instance of C5 at name "My Doc", discharging the fault-freedom
hypothesis on the empty filesystem. -/
theorem c5_save_normalization_witness :
    alistLookup emptyFs.writeFaults (pathJoin DOCS_DIR (ensureMd (kebab_case "My Doc"))) = none
    ∧ ((save_docs emptyFs "My Doc" "x").1.files
        = alistSet emptyFs.files (pathJoin DOCS_DIR (ensureMd (kebab_case "My Doc"))) (File.mk "x" none)
      ∧ (ensureMd (kebab_case "My Doc") = kebab_case "My Doc"
          ↔ ".md".data.isSuffixOf (kebab_case "My Doc").data = true)
      ∧ (ensureMd (kebab_case "My Doc") = kebab_case "My Doc" ++ ".md"
          ↔ ".md".data.isSuffixOf (kebab_case "My Doc").data = false)) :=
  ⟨rfl, c5_save_normalization emptyFs "My Doc" "x" rfl⟩

/-- Claim C6: read_docs on the empty list returns the caller-error message on
every filesystem state, and the result does not depend on the filesystem at
all, reflecting that no file is accessed; read_docs performs no state
transition in the source, so every document is left unchanged. -/
theorem c6_read_empty (fs gs : Fs) :
    read_docs fs [] = "Error: No filenames provided."
    ∧ read_docs fs [] = read_docs gs [] :=
  ⟨rfl, rfl⟩

/-- Claim C7: when the target document (after appending ".md" if missing)
does not exist, remove_docs returns the not-found message and leaves the
filesystem state unchanged. -/
theorem c7_remove_missing (fs : Fs) (name : String)
    (h : alistLookup fs.files (pathJoin DOCS_DIR (ensureMd name)) = none) :
    remove_docs fs name
      = (fs, "Error: File \x27" ++ ensureMd name ++ "\x27 not found.") := by
  unfold remove_docs
  rw [h]
  rfl

/-- Concrete instance of C7 at name "missing" on the empty filesystem. -/
theorem c7_remove_missing_witness :
    alistLookup emptyFs.files (pathJoin DOCS_DIR (ensureMd "missing")) = none
    ∧ remove_docs emptyFs "missing"
        = (emptyFs, "Error: File \x27missing.md\x27 not found.") :=
  ⟨rfl, c7_remove_missing emptyFs "missing" rfl⟩

theorem save_docs_save_docs (fs : Fs) (filename content : String) :
    (save_docs (save_docs fs filename content).1 filename content).1
      = (save_docs fs filename content).1 := by
  cases hw : alistLookup fs.writeFaults (pathJoin DOCS_DIR (ensureMd (kebab_case filename))) with
  | some e => simp [save_docs, hw]
  | none => simp [save_docs, hw, alistSet_idem]

/-- Claim C8: save_docs is idempotent under repeated identical calls: for
every N at least 1, the state after N consecutive identical calls equals the
state after one call (in both the success and the write-fault case). -/
theorem c8_save_idempotent (fs : Fs) (filename content : String) (N : Nat) (h : 1 ≤ N) :
    iterSave fs filename content N = iterSave fs filename content 1 := by
  obtain ⟨n, rfl⟩ : ∃ n, N = n + 1 := ⟨N - 1, by omega⟩
  clear h
  induction n with
  | zero => rfl
  | succ m ih =>
    show (save_docs (iterSave fs filename content (m + 1)) filename content).1
        = iterSave fs filename content 1
    rw [ih]
    exact save_docs_save_docs fs filename content

/-- Concrete instance of C8 with three consecutive identical calls. -/
theorem c8_save_idempotent_witness :
    1 ≤ 3 ∧ iterSave emptyFs "a" "b" 3 = iterSave emptyFs "a" "b" 1 :=
  ⟨by decide, c8_save_idempotent emptyFs "a" "b" 3 (by decide)⟩

/-- Claim C10: the empty name is not rejected: kebab-casing "" yields "",
the ".md" suffix is appended so the document named exactly ".md" is created
with the given content, and the success confirmation is returned. -/
theorem c10_save_empty_name (fs : Fs) (c : String)
    (hw : alistLookup fs.writeFaults (pathJoin DOCS_DIR ".md") = none) :
    kebab_case "" = ""
    ∧ ensureMd (kebab_case "") = ".md"
    ∧ (save_docs fs "" c).2 = "Successfully saved documentation to .md in " ++ DOCS_DIR
    ∧ alistLookup (save_docs fs "" c).1.files (pathJoin DOCS_DIR ".md")
        = some (File.mk c none) := by
  have hmd : ensureMd (kebab_case "") = ".md" := rfl
  refine ⟨rfl, hmd, ?_, ?_⟩
  · unfold save_docs
    rw [hmd, hw]
    rfl
  · unfold save_docs
    rw [hmd, hw]
    exact alistLookup_set_self fs.files _ _

/-- Concrete instance of C10 with content "hi" on the empty filesystem. -/
theorem c10_save_empty_name_witness :
    alistLookup emptyFs.writeFaults (pathJoin DOCS_DIR ".md") = none
    ∧ (kebab_case "" = ""
      ∧ ensureMd (kebab_case "") = ".md"
      ∧ (save_docs emptyFs "" "hi").2 = "Successfully saved documentation to .md in " ++ DOCS_DIR
      ∧ alistLookup (save_docs emptyFs "" "hi").1.files (pathJoin DOCS_DIR ".md")
          = some (File.mk "hi" none)) :=
  ⟨rfl, c10_save_empty_name emptyFs "hi" rfl⟩

/-- Claim C1: for every valid name (one the kebab normalization leaves
unchanged, so that save and read agree on the target) and every content, a
save followed by a read of that single name returns the aggregate consisting
of exactly the framed section for the resulting filename whose body is the
saved content; the write-fault freedom of the target makes the save succeed. -/
theorem c1_write_read_roundtrip (fs : Fs) (name c : String)
    (hvalid : kebab_case name = name)
    (hw : alistLookup fs.writeFaults (pathJoin DOCS_DIR (ensureMd name)) = none) :
    read_docs (save_docs fs name c).1 [name]
      = ("## " ++ ensureMd name ++ "\n\n" ++ c ++ "\n\n" ++ sep50 ++ "\n\n").trim := by
  have hfiles : (save_docs fs name c).1.files
      = alistSet fs.files (pathJoin DOCS_DIR (ensureMd name)) (File.mk c none) := by
    have h := save_docs_files fs name c (by rw [hvalid]; exact hw)
    rwa [hvalid] at h
  unfold read_docs
  rw [if_neg (List.cons_ne_nil name [])]
  simp only [List.foldl_cons, List.foldl_nil, String.empty_append]
  unfold readSection
  rw [hfiles, alistLookup_set_self]

/-- Concrete instance of C1 at name "notes" with content "hello" on the
empty filesystem. -/
theorem c1_write_read_roundtrip_witness :
    (kebab_case "notes" = "notes"
      ∧ alistLookup emptyFs.writeFaults (pathJoin DOCS_DIR (ensureMd "notes")) = none)
    ∧ read_docs (save_docs emptyFs "notes" "hello").1 ["notes"]
        = ("## " ++ ensureMd "notes" ++ "\n\n" ++ "hello" ++ "\n\n" ++ sep50 ++ "\n\n").trim :=
  ⟨⟨by decide, rfl⟩, c1_write_read_roundtrip emptyFs "notes" "hello" (by decide) rfl⟩

/-- Claim C2 fails as stated: at name "A" with content "x", save_docs stores
the kebab-cased document a.md, but remove_docs targets A.md, reports
not-found, and a subsequent enumeration still lists the written document. -/
theorem c2_counterexample :
    ensureMd (kebab_case "A") ∈ docNames (remove_docs (save_docs emptyFs "A" "x").1 "A").1
    ∧ (remove_docs (save_docs emptyFs "A" "x").1 "A").2
        = "Error: File \x27A.md\x27 not found." := by
  constructor
  · decide
  · decide

/-- Claim C2 (amended): for every name the kebab normalization leaves
unchanged, with fault-free writing and removal of the target, save followed
by remove makes a subsequent read of that name report not-found, and the
enumeration no longer lists the document. -/
theorem c2_remove_after_save (fs : Fs) (name c : String)
    (hvalid : kebab_case name = name)
    (hw : alistLookup fs.writeFaults (pathJoin DOCS_DIR (ensureMd name)) = none)
    (hr : alistLookup fs.removeFaults (pathJoin DOCS_DIR (ensureMd name)) = none) :
    read_docs (remove_docs (save_docs fs name c).1 name).1 [name]
      = ("Error: File \x27" ++ ensureMd name ++ "\x27 not found.\n\n").trim
    ∧ ensureMd name ∉ docNames (remove_docs (save_docs fs name c).1 name).1 := by
  have hfiles : (save_docs fs name c).1.files
      = alistSet fs.files (pathJoin DOCS_DIR (ensureMd name)) (File.mk c none) := by
    have h := save_docs_files fs name c (by rw [hvalid]; exact hw)
    rwa [hvalid] at h
  have hpresent : alistLookup (save_docs fs name c).1.files
      (pathJoin DOCS_DIR (ensureMd name)) = some (File.mk c none) := by
    rw [hfiles]
    exact alistLookup_set_self _ _ _
  have hrem := remove_docs_files_of_present (save_docs fs name c).1 name (File.mk c none)
    hpresent (by rw [save_docs_removeFaults]; exact hr)
  constructor
  · unfold read_docs
    rw [if_neg (List.cons_ne_nil name [])]
    simp only [List.foldl_cons, List.foldl_nil, String.empty_append]
    unfold readSection
    rw [hrem, alistLookup_erase_self]
  · intro hmem
    unfold docNames at hmem
    rw [List.mem_filterMap] at hmem
    obtain ⟨e, he, hname⟩ := hmem
    obtain ⟨hpath, hnoslash⟩ := docEntryName_some hname
    have hpj : pathJoin DOCS_DIR (ensureMd name) = DOCS_DIR ++ "/" ++ ensureMd name :=
      pathJoin_eq_of_no_slash _ hnoslash
    rw [hrem] at he
    unfold alistErase at he
    rw [List.mem_filter] at he
    have hne : e.1 ≠ pathJoin DOCS_DIR (ensureMd name) := by simpa using he.2
    exact hne (by rw [hpath, ← hpj])

/-- Concrete instance of the amended C2 at name "notes" on the empty
filesystem. -/
theorem c2_remove_after_save_witness :
    (kebab_case "notes" = "notes"
      ∧ alistLookup emptyFs.writeFaults (pathJoin DOCS_DIR (ensureMd "notes")) = none
      ∧ alistLookup emptyFs.removeFaults (pathJoin DOCS_DIR (ensureMd "notes")) = none)
    ∧ (read_docs (remove_docs (save_docs emptyFs "notes" "x").1 "notes").1 ["notes"]
        = ("Error: File \x27" ++ ensureMd "notes" ++ "\x27 not found.\n\n").trim
      ∧ ensureMd "notes" ∉ docNames (remove_docs (save_docs emptyFs "notes" "x").1 "notes").1) :=
  ⟨⟨by decide, rfl, rfl⟩, c2_remove_after_save emptyFs "notes" "x" (by decide) rfl rfl⟩

/-- Claim C3: under every filesystem condition, including read, write and
remove faults at arbitrary paths, each of the four handlers returns a plain
string of one of its documented shapes: every fault is converted into an
error string inside the handler, so nothing escapes to the dispatcher. -/
theorem c3_no_escaping_faults (fs : Fs) (names : List String) (n c : String) :
    (read_docs fs names = "Error: No filenames provided."
      ∨ read_docs fs names = (String.join (names.map (readSection fs))).trim)
    ∧ (list_docs fs = "No documentation files found."
      ∨ list_docs fs = "Available documentation files:\n\n"
          ++ String.join ((docNames fs).map (fun name => "- " ++ name ++ "\n")))
    ∧ ((save_docs fs n c).2 = "Successfully saved documentation to "
          ++ ensureMd (kebab_case n) ++ " in " ++ DOCS_DIR
      ∨ ∃ e, (save_docs fs n c).2 = "Error saving documentation: " ++ e)
    ∧ ((remove_docs fs n).2 = "Error: File \x27" ++ ensureMd n ++ "\x27 not found."
      ∨ (∃ e, (remove_docs fs n).2 = "Error removing documentation: " ++ e)
      ∨ (remove_docs fs n).2 = "Successfully removed " ++ ensureMd n ++ " from " ++ DOCS_DIR) := by
  refine ⟨?_, ?_, ?_, ?_⟩
  · by_cases h : names = []
    · left
      rw [h]
      rfl
    · right
      unfold read_docs
      rw [if_neg h, foldl_append_join, String.empty_append]
  · by_cases h : docNames fs = []
    · left
      unfold list_docs
      rw [if_pos h]
    · right
      unfold list_docs
      rw [if_neg h, foldl_append_join]
  · cases hw : alistLookup fs.writeFaults (pathJoin DOCS_DIR (ensureMd (kebab_case n))) with
    | none =>
      left
      unfold save_docs
      rw [hw]
    | some e =>
      right
      refine ⟨e, ?_⟩
      unfold save_docs
      rw [hw]
  · cases hex : alistLookup fs.files (pathJoin DOCS_DIR (ensureMd n)) with
    | none =>
      left
      unfold remove_docs
      rw [hex]
      rfl
    | some f =>
      cases hr : alistLookup fs.removeFaults (pathJoin DOCS_DIR (ensureMd n)) with
      | some e =>
        right
        left
        refine ⟨e, ?_⟩
        unfold remove_docs
        rw [hex, if_neg (by simp), hr]
      | none =>
        right
        right
        unfold remove_docs
        rw [hex, if_neg (by simp), hr]

/-- Claim C4: for every non-empty request list, read_docs is the trim of the
concatenation, in input order, of exactly one section per requested name,
and each section is either the framed content (heading with the filename,
the content, the 50-character separator) or an inline error notice naming
that file; no name aborts the batch. -/
theorem c4_read_batch (fs : Fs) (names : List String) (h : names ≠ []) :
    read_docs fs names = (String.join (names.map (readSection fs))).trim
    ∧ ∀ name ∈ names,
        readSection fs name = "Error: File \x27" ++ ensureMd name ++ "\x27 not found.\n\n"
        ∨ (∃ e, readSection fs name
            = "Error reading \x27" ++ ensureMd name ++ "\x27: " ++ e ++ "\n\n")
        ∨ (∃ content, readSection fs name
            = "## " ++ ensureMd name ++ "\n\n" ++ content ++ "\n\n" ++ sep50 ++ "\n\n") := by
  constructor
  · unfold read_docs
    rw [if_neg h, foldl_append_join, String.empty_append]
  · intro name _
    cases hex : alistLookup fs.files (pathJoin DOCS_DIR (ensureMd name)) with
    | none =>
      left
      unfold readSection
      rw [hex]
    | some f =>
      cases hrf : f.readFault with
      | some e =>
        right
        left
        refine ⟨e, ?_⟩
        simp [readSection, hex, hrf]
      | none =>
        right
        right
        refine ⟨f.content, ?_⟩
        simp [readSection, hex, hrf, String.append_assoc]

/-- Concrete instance of C4 with a present file and a missing file requested
together, in that order. -/
theorem c4_read_batch_witness :
    (["a", "b"] : List String) ≠ []
    ∧ (read_docs (save_docs emptyFs "a" "x").1 ["a", "b"]
        = (String.join ((["a", "b"] : List String).map (readSection (save_docs emptyFs "a" "x").1))).trim
      ∧ ∀ name ∈ (["a", "b"] : List String),
          readSection (save_docs emptyFs "a" "x").1 name
            = "Error: File \x27" ++ ensureMd name ++ "\x27 not found.\n\n"
          ∨ (∃ e, readSection (save_docs emptyFs "a" "x").1 name
              = "Error reading \x27" ++ ensureMd name ++ "\x27: " ++ e ++ "\n\n")
          ∨ (∃ content, readSection (save_docs emptyFs "a" "x").1 name
              = "## " ++ ensureMd name ++ "\n\n" ++ content ++ "\n\n" ++ sep50 ++ "\n\n")) :=
  ⟨by decide, c4_read_batch (save_docs emptyFs "a" "x").1 ["a", "b"] (by decide)⟩

/-- Claim C9: no operation guards against path traversal: the name "../x"
contains a path separator, the target paths computed by read_docs and
remove_docs (ensureMd of the name) and by save_docs (ensureMd of its
kebab-casing) coincide and resolve outside the store root, and save_docs
actually creates a file at that escaped path. -/
theorem c9_path_traversal :
    ∃ name : String, name.data.contains '/' = true
      ∧ escapesRoot (pathJoin DOCS_DIR (ensureMd name)) = true
      ∧ escapesRoot (pathJoin DOCS_DIR (ensureMd (kebab_case name))) = true
      ∧ alistLookup ((save_docs emptyFs name "boom").1.files)
          (pathJoin DOCS_DIR (ensureMd (kebab_case name))) = some (File.mk "boom" none) :=
  ⟨"../x", by decide, by decide, by decide, by decide⟩
